import Mathlib

/-!
Shallow embedding of the finite-difference transport engine of
`backend/app/physics/advection_1d.py` and `backend/app/physics/advection_2d.py`.

Conventions of the embedding:
* Machine floats are modelled by exact arithmetic in a linear ordered field
  `α` (instantiated at `ℚ` for executable statements and at `ℝ` where the
  transcendental initial condition is concerned).
* `numpy` arrays are modelled as total functions `ℕ → α` (1-D) and
  `ℕ → ℕ → α` (2-D) together with the explicit lengths `nx`, `ny`; all
  statements restrict to indices inside the array bounds.  Out-of-bounds
  accesses of the Python code (which only happen for grids with a zero cell
  count) are not modelled; every theorem below restricts to `2 ≤ nx`
  (resp. `2 ≤ ny`) or to the `nx = 1` division failure, which in the code
  is raised before any array is built.
* `np.exp` is a foreign transcendental function; the solvers take it as an
  explicit parameter `gexp` so that the stepping and sampling logic can be
  studied over `ℚ` while the initial-condition statements instantiate
  `gexp := Real.exp`.
* Python exceptions are modelled by `Except PyError`; the only failure the
  embedded code can produce is an (untyped, in Python) `ZeroDivisionError`.
-/

namespace WeatherModel

/-- Failure kinds relevant to the engine.  `zeroDivision` models Python's
`ZeroDivisionError`.  `domainError` is the `DomainError` of the spec's error
taxonomy; the source code never constructs such an error (this constructor
exists so that its absence can be stated). -/
inductive PyError where
  | zeroDivision
  | domainError
deriving DecidableEq

variable {α : Type} [LinearOrderedField α] {σ : Type}

/-- The sampling loop shared by both solvers:

    for n in range(1, num_steps + 1):
        u = step(u)
        if n % output_interval == 0:
            results.append((n, u))

`k` is the number of remaining iterations and `n` the current step index.
Python's `n % output_interval` raises `ZeroDivisionError` when
`output_interval = 0`, which is modelled by the explicit check. -/
def sampleLoop (f : σ → σ) (ivl : ℕ) : ℕ → ℕ → σ → Except PyError (List (ℕ × σ))
  | 0, _, _ => .ok []
  | k + 1, n, u =>
    let u2 := f u
    if ivl = 0 then .error .zeroDivision
    else
      match sampleLoop f ivl k (n + 1) u2 with
      | .error e => .error e
      | .ok rest => .ok (if n % ivl = 0 then (n, u2) :: rest else rest)

/-- A full run: the step-0 snapshot followed by the sampled stepping loop. -/
def runSeries (f : σ → σ) (u0 : σ) (numSteps ivl : ℕ) :
    Except PyError (List (ℕ × σ)) :=
  (sampleLoop f ivl numSteps 1 u0).map (fun l => (0, u0) :: l)

/-- Grid spacing, `dx = 1.0 / (nx - 1)` in the source. -/
def spacing (nx : ℕ) : α := 1 / ((nx : α) - 1)

/-- `np.linspace(0, 1, nx)`: `nx` uniformly spaced coordinates over `[0, 1]`
inclusive of both endpoints, `x i = i / (nx - 1)`. -/
def linspace01 (nx : ℕ) : ℕ → α := fun i => (i : α) / ((nx : α) - 1)

/-- 1-D time step, `dt = dx / abs(c) if c != 0 else dx`. -/
def dt1d (nx : ℕ) (c : α) : α :=
  if c ≠ 0 then spacing nx / |c| else spacing nx

/-- 1-D Gaussian initial condition, `u = np.exp(-40 * (x - 0.25) ** 2)`. -/
def init1d (gexp : α → α) (nx : ℕ) : ℕ → α :=
  fun i => gexp (-40 * (linspace01 nx i - 1 / 4) ^ 2)

/-- One step of the 1-D upwind stepper:

    u_new = u.copy()
    if c >= 0:
        u_new[1:] = u[1:] - c * dt / dx * (u[1:] - u[:-1])
        u_new[0] = u[0] - c * dt / dx * (u[0] - u[-1])  # periodic
    else:
        u_new[:-1] = u[:-1] - c * dt / dx * (u[1:] - u[:-1])
        u_new[-1] = u[-1] - c * dt / dx * (u[0] - u[-1])  # periodic

Indices at or beyond `nx` keep the `u.copy()` value. -/
def step1d (nx : ℕ) (c dt dx : α) (u : ℕ → α) : ℕ → α :=
  if 0 ≤ c then
    fun i =>
      if i = 0 then u 0 - c * dt / dx * (u 0 - u (nx - 1))
      else if i < nx then u i - c * dt / dx * (u i - u (i - 1))
      else u i
  else
    fun i =>
      if i = nx - 1 then u (nx - 1) - c * dt / dx * (u 0 - u (nx - 1))
      else if i < nx then u i - c * dt / dx * (u (i + 1) - u i)
      else u i

/-- The value assembled by `solve_1d_advection`. -/
structure Result1D (α : Type) where
  x : ℕ → α
  c : α
  dt : α
  dx : α
  num_steps : ℕ
  series : List (ℕ × (ℕ → α))

/-- `solve_1d_advection` of `advection_1d.py`.  The guard `nx = 1` models the
`ZeroDivisionError` raised by `dx = 1.0 / (nx - 1)`. -/
def solve_1d_advection (gexp : α → α) (nx : ℕ) (c : α)
    (num_steps output_interval : ℕ) : Except PyError (Result1D α) :=
  if nx = 1 then .error .zeroDivision
  else
    (runSeries (step1d nx c (dt1d nx c) (spacing nx)) (init1d gexp nx)
        num_steps output_interval).map
      (fun s =>
        { x := linspace01 nx, c := c, dt := dt1d nx c, dx := spacing nx
          num_steps := num_steps, series := s })

/-- 2-D time step:

    dt_adv = min(dx / max(abs(cx), 1e-6), dy / max(abs(cy), 1e-6))
    dt_diff = 0.25 * min(dx**2, dy**2) / max(diffusion, 1e-10)
    dt = min(dt_adv, dt_diff, 0.002)

(the decimal float literals are modelled by their exact decimal values). -/
def dt2d (nx ny : ℕ) (cx cy diffusion : α) : α :=
  let dx : α := spacing nx
  let dy : α := spacing ny
  let dt_adv := min (dx / max |cx| (1 / 1000000)) (dy / max |cy| (1 / 1000000))
  let dt_diff := 1 / 4 * min (dx ^ 2) (dy ^ 2) / max diffusion (1 / 10000000000)
  min (min dt_adv dt_diff) (1 / 500)

/-- 2-D Gaussian initial condition.  With `X, Y = np.meshgrid(x, y)` the field
has shape `(ny, nx)` and `u[i, j] = exp(-80 * ((x[j] - 0.3)^2 + (y[i] - 0.5)^2))`. -/
def init2d (gexp : α → α) (nx ny : ℕ) : ℕ → ℕ → α :=
  fun i j =>
    gexp (-80 * ((linspace01 nx j - 3 / 10) ^ 2 + (linspace01 ny i - 1 / 2) ^ 2))

/-- x-advection pass:

    if cx >= 0:
        u_new[:, 1:] -= cx * dt / dx * (u[:, 1:] - u[:, :-1])
        u_new[:, 0] -= cx * dt / dx * (u[:, 0] - u[:, -1])
    else:
        u_new[:, :-1] -= cx * dt / dx * (u[:, 1:] - u[:, :-1])
        u_new[:, -1] -= cx * dt / dx * (u[:, 0] - u[:, -1])

`u` is the field the increments are read from and `un` the accumulator the
decrement is applied to (`u_new` in the source). -/
def advX (nx : ℕ) (cx dt dx : α) (u un : ℕ → ℕ → α) : ℕ → ℕ → α :=
  if 0 ≤ cx then
    fun i j =>
      if j = 0 then un i 0 - cx * dt / dx * (u i 0 - u i (nx - 1))
      else if j < nx then un i j - cx * dt / dx * (u i j - u i (j - 1))
      else un i j
  else
    fun i j =>
      if j = nx - 1 then un i (nx - 1) - cx * dt / dx * (u i 0 - u i (nx - 1))
      else if j < nx then un i j - cx * dt / dx * (u i (j + 1) - u i j)
      else un i j

/-- y-advection pass, the row analogue of `advX`:

    if cy >= 0:
        u_new[1:, :] -= cy * dt / dy * (u[1:, :] - u[:-1, :])
        u_new[0, :] -= cy * dt / dy * (u[0, :] - u[-1, :])
    else:
        u_new[:-1, :] -= cy * dt / dy * (u[1:, :] - u[:-1, :])
        u_new[-1, :] -= cy * dt / dy * (u[0, :] - u[-1, :]) -/
def advY (ny : ℕ) (cy dt dy : α) (u un : ℕ → ℕ → α) : ℕ → ℕ → α :=
  if 0 ≤ cy then
    fun i j =>
      if i = 0 then un 0 j - cy * dt / dy * (u 0 j - u (ny - 1) j)
      else if i < ny then un i j - cy * dt / dy * (u i j - u (i - 1) j)
      else un i j
  else
    fun i j =>
      if i = ny - 1 then un (ny - 1) j - cy * dt / dy * (u 0 j - u (ny - 1) j)
      else if i < ny then un i j - cy * dt / dy * (u (i + 1) j - u i j)
      else un i j

/-- Diffusion pass (5-point Laplacian on interior points only):

    u_new[1:-1, 1:-1] += diffusion * dt * (
        (u[2:, 1:-1] + u[:-2, 1:-1] + u[1:-1, 2:] + u[1:-1, :-2]
         - 4 * u[1:-1, 1:-1]) / (dx * dy))

Interior means row index in `1 .. ny-2` and column index in `1 .. nx-2`. -/
def diffPass (nx ny : ℕ) (diffusion dt dx dy : α) (u un : ℕ → ℕ → α) :
    ℕ → ℕ → α :=
  fun i j =>
    if 1 ≤ i ∧ i < ny - 1 ∧ 1 ≤ j ∧ j < nx - 1 then
      un i j + diffusion * dt *
        ((u (i + 1) j + u (i - 1) j + u i (j + 1) + u i (j - 1) - 4 * u i j)
          / (dx * dy))
    else un i j

/-- One step of the 2-D stepper exactly as in the source: `u_new` starts as a
copy of `u`, and each of the three passes reads the frozen pre-step field `u`
while subtracting/adding its increment into the accumulator `u_new`. -/
def step2d (nx ny : ℕ) (cx cy diffusion dt dx dy : α) (u : ℕ → ℕ → α) :
    ℕ → ℕ → α :=
  diffPass nx ny diffusion dt dx dy u
    (advY ny cy dt dy u (advX nx cx dt dx u u))

/-- Modelled from the spec: "Both advection passes and the diffusion pass
operate on the field produced by the previous pass within the same step
(sequential composition, not simultaneous update from a single frozen
snapshot)."  Each pass reads the field produced by the previous pass. -/
def step2dSeq (nx ny : ℕ) (cx cy diffusion dt dx dy : α) (u : ℕ → ℕ → α) :
    ℕ → ℕ → α :=
  let v1 := advX nx cx dt dx u u
  let v2 := advY ny cy dt dy v1 v1
  diffPass nx ny diffusion dt dx dy v2 v2

/-- The value assembled by `solve_2d_advection_diffusion` (the source returns
no `dt`/`dx`/`dy` keys in its result dict). -/
structure Result2D (α : Type) where
  nx : ℕ
  ny : ℕ
  cx : α
  cy : α
  diffusion : α
  num_steps : ℕ
  series : List (ℕ × (ℕ → ℕ → α))

/-- `solve_2d_advection_diffusion` of `advection_2d.py`.  The guard models the
`ZeroDivisionError` raised by `dx = 1.0 / (nx - 1)` or `dy = 1.0 / (ny - 1)`. -/
def solve_2d_advection_diffusion (gexp : α → α) (nx ny : ℕ) (cx cy diffusion : α)
    (num_steps output_interval : ℕ) : Except PyError (Result2D α) :=
  if nx = 1 ∨ ny = 1 then .error .zeroDivision
  else
    (runSeries
        (step2d nx ny cx cy diffusion (dt2d nx ny cx cy diffusion)
          (spacing nx) (spacing ny))
        (init2d gexp nx ny) num_steps output_interval).map
      (fun s =>
        { nx := nx, ny := ny, cx := cx, cy := cy, diffusion := diffusion
          num_steps := num_steps, series := s })

/-- For a nonzero sampling stride the sampling loop succeeds and returns the
iterates of the stepper at exactly the step indices divisible by the stride. -/
theorem sampleLoop_eq (f : σ → σ) {ivl : ℕ} (h : ivl ≠ 0) :
    ∀ (k n : ℕ) (u : σ),
      sampleLoop f ivl k n u =
        .ok (((List.range' n k).filter (fun m => m % ivl = 0)).map
          (fun m => (m, f^[m + 1 - n] u))) := by
  intro k
  induction k with
  | zero => intro n u; simp [sampleLoop]
  | succ k ih =>
    intro n u
    simp only [sampleLoop, if_neg h, ih (n + 1) (f u)]
    simp only [List.range'_succ, List.filter_cons]
    by_cases hn : n % ivl = 0 <;>
      simp [hn, Nat.add_sub_cancel_left] <;>
      · intro a ha1 _ _
        have hs : a + 1 - n = (a - n) + 1 := by omega
        rw [hs, Function.iterate_succ_apply]

/-- A run with a nonzero stride: snapshot 0 followed by the sampled iterates. -/
theorem runSeries_eq (f : σ → σ) (u0 : σ) (N : ℕ) {ivl : ℕ} (h : ivl ≠ 0) :
    runSeries f u0 N ivl =
      .ok ((0, u0) :: ((List.range' 1 N).filter (fun m => m % ivl = 0)).map
        (fun m => (m, f^[m] u0))) := by
  rw [runSeries, sampleLoop_eq f h N 1 u0]
  simp [Except.map, Nat.add_sub_cancel]

/-- Every recorded snapshot is the `n`-fold iterate of the stepper at its
recorded step index (the same step function, hence the same `dt`, at every
step of the run). -/
theorem runSeries_mem {f : σ → σ} {u0 : σ} {N ivl : ℕ} (h : ivl ≠ 0)
    {l : List (ℕ × σ)} (hl : runSeries f u0 N ivl = .ok l) {p : ℕ × σ}
    (hp : p ∈ l) : p.2 = f^[p.1] u0 := by
  rw [runSeries_eq f u0 N h] at hl
  have hl' : l = (0, u0) ::
      ((List.range' 1 N).filter (fun m => m % ivl = 0)).map
        (fun m => (m, f^[m] u0)) := by
    cases hl; rfl
  subst hl'
  rcases List.mem_cons.mp hp with rfl | hp
  · simp
  · obtain ⟨m, _, hpe⟩ := List.mem_map.mp hp
    rw [← hpe]

/-- The number of sampled steps among `1 .. N` is `N / ivl`. -/
theorem filter_mod_length (ivl N : ℕ) :
    ((List.range' 1 N).filter (fun m => m % ivl = 0)).length = N / ivl := by
  induction N with
  | zero => simp
  | succ N ih =>
    have hc : List.range' 1 (N + 1) = List.range' 1 N ++ [1 + 1 * N] :=
      List.range'_concat 1 N
    have h1 : 1 + 1 * N = N + 1 := by omega
    rw [hc, h1]
    simp only [List.filter_append, List.length_append, ih]
    by_cases hd : (N + 1) % ivl = 0
    · have hdvd : ivl ∣ N + 1 := Nat.dvd_iff_mod_eq_zero.mpr hd
      rw [Nat.succ_div]
      simp [hd, hdvd]
    · have hdvd : ¬ ivl ∣ N + 1 := fun hx => hd (Nat.dvd_iff_mod_eq_zero.mp hx)
      rw [Nat.succ_div]
      simp [hd, hdvd]

/-- The sampled step indices, with 0 in front, are strictly increasing. -/
theorem filter_mod_pairwise (N ivl : ℕ) :
    ((0 : ℕ) :: (List.range' 1 N).filter (fun m => m % ivl = 0)).Pairwise
      (· < ·) := by
  refine List.pairwise_cons.mpr ⟨?_, ?_⟩
  · intro m hm
    have := List.mem_range'_1.mp (List.mem_of_mem_filter hm)
    omega
  · exact (List.pairwise_lt_range' 1 N).sublist (List.filter_sublist _)

/-- Unfolding of a successful 1-D run. -/
theorem solve_1d_eq (gexp : α → α) {nx : ℕ} (c : α) (N : ℕ) {ivl : ℕ}
    (hnx : nx ≠ 1) (hivl : ivl ≠ 0) :
    solve_1d_advection gexp nx c N ivl =
      .ok { x := linspace01 nx, c := c, dt := dt1d nx c, dx := spacing nx,
            num_steps := N,
            series := (0, init1d gexp nx) ::
              ((List.range' 1 N).filter (fun m => m % ivl = 0)).map
                (fun m => (m, (step1d nx c (dt1d nx c) (spacing nx))^[m]
                  (init1d gexp nx))) } := by
  rw [solve_1d_advection, if_neg hnx, runSeries_eq _ _ _ hivl]
  rfl

/-- Unfolding of a successful 2-D run. -/
theorem solve_2d_eq (gexp : α → α) {nx ny : ℕ} (cx cy d : α) (N : ℕ)
    {ivl : ℕ} (hnx : nx ≠ 1) (hny : ny ≠ 1) (hivl : ivl ≠ 0) :
    solve_2d_advection_diffusion gexp nx ny cx cy d N ivl =
      .ok { nx := nx, ny := ny, cx := cx, cy := cy, diffusion := d,
            num_steps := N,
            series := (0, init2d gexp nx ny) ::
              ((List.range' 1 N).filter (fun m => m % ivl = 0)).map
                (fun m => (m, (step2d nx ny cx cy d (dt2d nx ny cx cy d)
                  (spacing nx) (spacing ny))^[m] (init2d gexp nx ny))) } := by
  rw [solve_2d_advection_diffusion, if_neg (by simp [hnx, hny]),
    runSeries_eq _ _ _ hivl]
  rfl

/-- Projecting the step indices out of a snapshot list built from a list of
step indices. -/
theorem map_fst_pairs {β : Type} (g : ℕ → β) (l : List ℕ) :
    (l.map (fun m => (m, g m))).map Prod.fst = l := by
  induction l with
  | nil => rfl
  | cons a l ih => simp only [List.map_cons, ih]

/-- C3: for `num_steps ≥ 1` and `output_interval ≥ 1`, a run of either solver
produces exactly `num_steps / output_interval + 1` snapshots: one at step 0
and one at each step in `1 .. num_steps` that is an exact multiple of the
stride, in strictly increasing step order; when `num_steps` is not a multiple
of the stride the final state is not captured. -/
theorem snapshot_schedule (gexp : ℚ → ℚ) (nx ny : ℕ) (c cx cy d : ℚ)
    (N ivl : ℕ) (hnx : 2 ≤ nx) (hny : 2 ≤ ny) (hN : 1 ≤ N) (hivl : 1 ≤ ivl) :
    ∃ r1 r2, solve_1d_advection gexp nx c N ivl = .ok r1 ∧
      solve_2d_advection_diffusion gexp nx ny cx cy d N ivl = .ok r2 ∧
      r1.series.map Prod.fst =
        0 :: (List.range' 1 N).filter (fun n => n % ivl = 0) ∧
      r2.series.map Prod.fst = r1.series.map Prod.fst ∧
      r1.series.length = N / ivl + 1 ∧
      r2.series.length = N / ivl + 1 ∧
      (r1.series.map Prod.fst).Pairwise (· < ·) ∧
      (N % ivl ≠ 0 → N ∉ r1.series.map Prod.fst ∧ N ∉ r2.series.map Prod.fst) := by
  have hnx1 : nx ≠ 1 := by omega
  have hny1 : ny ≠ 1 := by omega
  have hivl0 : ivl ≠ 0 := by omega
  refine ⟨_, _, solve_1d_eq gexp c N hnx1 hivl0,
    solve_2d_eq gexp cx cy d N hnx1 hny1 hivl0, ?_, ?_, ?_, ?_, ?_, ?_⟩
  · simp only [List.map_cons, map_fst_pairs]
  · simp only [List.map_cons, map_fst_pairs]
  · simp [filter_mod_length ivl N]
  · simp [filter_mod_length ivl N]
  · simp only [List.map_cons, map_fst_pairs]
    exact filter_mod_pairwise N ivl
  · intro hmod
    have hnotin : (N : ℕ) ∉ (0 : ℕ) ::
        (List.range' 1 N).filter (fun n => n % ivl = 0) := by
      intro hmem
      rcases List.mem_cons.mp hmem with h0 | hmem
      · omega
      · exact hmod (of_decide_eq_true (List.mem_filter.mp hmem).2)
    constructor <;> · simp only [List.map_cons, map_fst_pairs]; exact hnotin

/-- C3 witness: a concrete run, `num_steps = 5`, `output_interval = 2`. -/
theorem snapshot_schedule_witness :
    ∃ r1 r2,
      solve_1d_advection (fun q : ℚ => q) 3 (1 : ℚ) 5 2 = .ok r1 ∧
      solve_2d_advection_diffusion (fun q : ℚ => q) 3 3 (1 : ℚ) 0 (1/1000) 5 2 =
        .ok r2 ∧
      r1.series.map Prod.fst =
        0 :: (List.range' 1 5).filter (fun n => n % 2 = 0) ∧
      r2.series.map Prod.fst = r1.series.map Prod.fst ∧
      r1.series.length = 5 / 2 + 1 ∧
      r2.series.length = 5 / 2 + 1 ∧
      (r1.series.map Prod.fst).Pairwise (· < ·) ∧
      (5 % 2 ≠ 0 → 5 ∉ r1.series.map Prod.fst ∧ 5 ∉ r2.series.map Prod.fst) :=
  snapshot_schedule (fun q : ℚ => q) 3 3 1 1 0 (1/1000) 5 2 (by decide)
    (by decide) (by decide) (by decide)

/-- C5: for every `nx ≥ 2`, the 1-D run has `dx = 1/(nx-1)`, `dt = dx/|c|`
when `c ≠ 0` and `dt = dx` when `c = 0`, so that for `c ≠ 0` the Courant
number `|c| · dt / dx` is exactly 1. -/
theorem cfl_unity (gexp : ℚ → ℚ) (nx : ℕ) (c : ℚ) (N ivl : ℕ)
    (hnx : 2 ≤ nx) (hivl : 1 ≤ ivl) :
    ∃ r, solve_1d_advection gexp nx c N ivl = .ok r ∧
      r.dx = 1 / ((nx : ℚ) - 1) ∧
      (c ≠ 0 → r.dt = r.dx / |c|) ∧
      (c = 0 → r.dt = r.dx) ∧
      (c ≠ 0 → |c| * r.dt / r.dx = 1) := by
  have hnx1 : nx ≠ 1 := by omega
  have hivl0 : ivl ≠ 0 := by omega
  refine ⟨_, solve_1d_eq gexp c N hnx1 hivl0, rfl, ?_, ?_, ?_⟩
  · intro hc; simp [dt1d, hc]
  · intro hc; simp [dt1d, hc]
  · intro hc
    have hcast : (2 : ℚ) ≤ (nx : ℚ) := by exact_mod_cast hnx
    have hpos : (0 : ℚ) < (nx : ℚ) - 1 := by linarith
    have hdx : spacing (α := ℚ) nx ≠ 0 := by
      rw [spacing]
      exact ne_of_gt (div_pos one_pos hpos)
    have habs : |c| ≠ 0 := abs_ne_zero.mpr hc
    simp only [dt1d, hc, ne_eq, not_false_eq_true, if_true]
    field_simp

/-- C5 witness: the concrete run `nx = 3`, `c = 2`. -/
theorem cfl_unity_witness :
    ∃ r, solve_1d_advection (fun q : ℚ => q) 3 (2 : ℚ) 1 1 = .ok r ∧
      r.dx = 1 / (((3 : ℕ) : ℚ) - 1) ∧
      ((2 : ℚ) ≠ 0 → r.dt = r.dx / |(2 : ℚ)|) ∧
      ((2 : ℚ) = 0 → r.dt = r.dx) ∧
      ((2 : ℚ) ≠ 0 → |(2 : ℚ)| * r.dt / r.dx = 1) :=
  cfl_unity (fun q : ℚ => q) 3 2 1 1 (by decide) (by decide)

/-- An error produced by the sampling loop is always the division-by-zero
failure of `n % output_interval`. -/
theorem sampleLoop_error_eq {f : σ → σ} {ivl k n : ℕ} {u : σ} {e : PyError}
    (h : sampleLoop f ivl k n u = .error e) : e = .zeroDivision := by
  induction k generalizing n u e with
  | zero => simp [sampleLoop] at h
  | succ k ih =>
    rw [sampleLoop] at h
    by_cases hivl : ivl = 0
    · rw [if_pos hivl] at h
      injection h with h2
      exact h2.symm
    · rw [if_neg hivl] at h
      cases hrec : sampleLoop f ivl k (n + 1) (f u) with
      | error e2 =>
        rw [hrec] at h
        injection h with h2
        rw [← h2]
        exact ih hrec
      | ok rest =>
        rw [hrec] at h
        by_cases hn : n % ivl = 0 <;> simp [hn] at h

/-- An error produced by a run is always the division-by-zero failure. -/
theorem runSeries_error_eq {f : σ → σ} {u0 : σ} {N ivl : ℕ} {e : PyError}
    (h : runSeries f u0 N ivl = .error e) : e = .zeroDivision := by
  rw [runSeries] at h
  cases hs : sampleLoop f ivl N 1 u0 with
  | error e2 =>
    rw [hs] at h
    injection h with h2
    rw [← h2]
    exact sampleLoop_error_eq hs
  | ok l =>
    rw [hs] at h
    simp [Except.map] at h

/-- C2: the solvers never signal the spec's `DomainError` — for a grid with
fewer than 2 points in a dimension the 1-D solver fails with an untyped
`ZeroDivisionError` at `dx = 1.0 / (nx - 1)` (failing input `nx = 1`), and
the 2-D solver likewise when `nx = 1` or `ny = 1`; no in-core grid-size check
exists. -/
theorem domain_check_missing :
    (∀ (gexp : ℚ → ℚ) (nx : ℕ) (c : ℚ) (N ivl : ℕ),
        solve_1d_advection gexp nx c N ivl ≠ .error .domainError) ∧
    (∀ (gexp : ℚ → ℚ) (nx ny : ℕ) (cx cy d : ℚ) (N ivl : ℕ),
        solve_2d_advection_diffusion gexp nx ny cx cy d N ivl ≠
          .error .domainError) ∧
    solve_1d_advection (fun q : ℚ => q) 1 (1 : ℚ) 50 10 =
      .error .zeroDivision ∧
    solve_2d_advection_diffusion (fun q : ℚ => q) 1 30 (1/2 : ℚ) 0 (1/1000)
      30 10 = .error .zeroDivision ∧
    solve_2d_advection_diffusion (fun q : ℚ => q) 40 1 (1/2 : ℚ) 0 (1/1000)
      30 10 = .error .zeroDivision := by
  refine ⟨?_, ?_, rfl, rfl, rfl⟩
  · intro gexp nx c N ivl hcontra
    rw [solve_1d_advection] at hcontra
    by_cases hnx : nx = 1
    · rw [if_pos hnx] at hcontra
      injection hcontra with h2
      cases h2
    · rw [if_neg hnx] at hcontra
      cases hs : runSeries (step1d nx c (dt1d nx c) (spacing nx))
          (init1d gexp nx) N ivl with
      | error e =>
        rw [hs] at hcontra
        injection hcontra with h2
        have := runSeries_error_eq hs
        rw [this] at h2
        cases h2
      | ok l =>
        rw [hs] at hcontra
        simp [Except.map] at hcontra
  · intro gexp nx ny cx cy d N ivl hcontra
    rw [solve_2d_advection_diffusion] at hcontra
    by_cases hxy : nx = 1 ∨ ny = 1
    · rw [if_pos hxy] at hcontra
      injection hcontra with h2
      cases h2
    · rw [if_neg hxy] at hcontra
      cases hs : runSeries (step2d nx ny cx cy d (dt2d nx ny cx cy d)
          (spacing nx) (spacing ny)) (init2d gexp nx ny) N ivl with
      | error e =>
        rw [hs] at hcontra
        injection hcontra with h2
        have := runSeries_error_eq hs
        rw [this] at h2
        cases h2
      | ok l =>
        rw [hs] at hcontra
        simp [Except.map] at hcontra

/-- C10: neither solver validates `output_interval`.  For
`output_interval = 0` and `num_steps ≥ 1` both solvers fail with the untyped
`ZeroDivisionError` of `n % output_interval` inside the stepping loop, not
with a `DomainError`; with `num_steps = 0` the loop never runs and the same
`output_interval = 0` passes through without any error. -/
theorem zero_interval_div_error (gexp : ℚ → ℚ) (nx ny : ℕ) (c cx cy d : ℚ)
    (N : ℕ) (hnx : 2 ≤ nx) (hny : 2 ≤ ny) (hN : 1 ≤ N) :
    solve_1d_advection gexp nx c N 0 = .error .zeroDivision ∧
    solve_2d_advection_diffusion gexp nx ny cx cy d N 0 =
      .error .zeroDivision ∧
    (∃ r, solve_1d_advection gexp nx c 0 0 = .ok r) ∧
    (∃ r, solve_2d_advection_diffusion gexp nx ny cx cy d 0 0 = .ok r) := by
  obtain ⟨k, rfl⟩ : ∃ k, N = k + 1 := ⟨N - 1, by omega⟩
  have hnx1 : nx ≠ 1 := by omega
  have hny1 : ny ≠ 1 := by omega
  refine ⟨?_, ?_, ?_, ?_⟩
  · rw [solve_1d_advection, if_neg hnx1]
    rfl
  · rw [solve_2d_advection_diffusion, if_neg (by simp [hnx1, hny1])]
    rfl
  · rw [solve_1d_advection, if_neg hnx1]
    exact ⟨_, rfl⟩
  · rw [solve_2d_advection_diffusion, if_neg (by simp [hnx1, hny1])]
    exact ⟨_, rfl⟩

/-- C10 witness: concrete runs at `nx = ny = 3`, `num_steps = 2`. -/
theorem zero_interval_div_error_witness :
    solve_1d_advection (fun q : ℚ => q) 3 (1 : ℚ) 2 0 = .error .zeroDivision ∧
    solve_2d_advection_diffusion (fun q : ℚ => q) 3 3 (1 : ℚ) 0 (1/1000) 2 0 =
      .error .zeroDivision ∧
    (∃ r, solve_1d_advection (fun q : ℚ => q) 3 (1 : ℚ) 0 0 = .ok r) ∧
    (∃ r, solve_2d_advection_diffusion (fun q : ℚ => q) 3 3 (1 : ℚ) 0 (1/1000)
      0 0 = .ok r) :=
  zero_interval_div_error (fun q : ℚ => q) 3 3 1 1 0 (1/1000) 2 (by decide)
    (by decide) (by decide)

/-- C1 counterexample: on a 2×2 grid with `cx = cy = 1`, zero diffusion and
the solver's own time step, the stepper of the source (all passes read the
frozen pre-step field) differs at entry `(0,0)` from the sequential
composition described by the spec (each pass reads the previous pass's
output). -/
theorem sequential_composition_counterexample :
    step2d 2 2 (1 : ℚ) 1 0 (dt2d 2 2 1 1 0) (spacing 2) (spacing 2)
      (fun i j => if i = 0 ∧ j = 0 then (1 : ℚ) else 0) 0 0 ≠
    step2dSeq 2 2 (1 : ℚ) 1 0 (dt2d 2 2 1 1 0) (spacing 2) (spacing 2)
      (fun i j => if i = 0 ∧ j = 0 then (1 : ℚ) else 0) 0 0 := by
  norm_num [step2d, step2dSeq, advX, advY, diffPass, dt2d, spacing,
    min_def, max_def]

/-- C1 amended: within a single step all three stencil passes read the single
frozen pre-step field `u`, and their increments accumulate additively into the
copy `u_new`; at an interior point with non-negative velocities the new value
is the pre-step value minus the two advective increments plus the diffusive
increment, each computed from `u` itself. -/
theorem frozen_field_accumulation (nx ny : ℕ) (cx cy d dt dx dy : ℚ)
    (u : ℕ → ℕ → ℚ) (i j : ℕ) (hcx : 0 ≤ cx) (hcy : 0 ≤ cy)
    (hi1 : 1 ≤ i) (hi2 : i < ny - 1) (hj1 : 1 ≤ j) (hj2 : j < nx - 1) :
    step2d nx ny cx cy d dt dx dy u i j =
      u i j - cx * dt / dx * (u i j - u i (j - 1))
        - cy * dt / dy * (u i j - u (i - 1) j)
        + d * dt * ((u (i + 1) j + u (i - 1) j + u i (j + 1) + u i (j - 1)
            - 4 * u i j) / (dx * dy)) := by
  have hiny : i < ny := by omega
  have hjnx : j < nx := by omega
  have hi0 : ¬ i = 0 := by omega
  have hj0 : ¬ j = 0 := by omega
  simp [step2d, diffPass, advY, advX, hcx, hcy, hi1, hi2, hj1, hj2, hiny,
    hjnx, hi0, hj0]

/-- C1 amended witness: a concrete interior evaluation on a 3×3 grid. -/
theorem frozen_field_accumulation_witness :
    step2d 3 3 (1 : ℚ) 1 1 1 1 1 (fun i j => (i * 3 + j : ℚ)) 1 1 =
      (fun i j => (i * 3 + j : ℚ)) 1 1
        - 1 * 1 / 1 * ((fun i j => (i * 3 + j : ℚ)) 1 1
          - (fun i j => (i * 3 + j : ℚ)) 1 0)
        - 1 * 1 / 1 * ((fun i j => (i * 3 + j : ℚ)) 1 1
          - (fun i j => (i * 3 + j : ℚ)) 0 1)
        + 1 * 1 * (((fun i j => (i * 3 + j : ℚ)) 2 1
            + (fun i j => (i * 3 + j : ℚ)) 0 1
            + (fun i j => (i * 3 + j : ℚ)) 1 2
            + (fun i j => (i * 3 + j : ℚ)) 1 0
            - 4 * (fun i j => (i * 3 + j : ℚ)) 1 1) / (1 * 1)) :=
  frozen_field_accumulation 3 3 1 1 1 1 1 1 (fun i j => (i * 3 + j : ℚ)) 1 1
    (by decide) (by decide) (by decide) (by decide) (by decide) (by decide)

/-- C4: the 1-D stepper is the first-order upwind scheme with periodic wrap:
for `c ≥ 0` a backward difference with the index `i - 1` wrapping to `nx - 1`
at `i = 0`, and for `c < 0` the mirror forward difference with the last index
wrapping to index 0; the branch depends only on the sign of `c`. -/
theorem upwind_stencil :
    (∀ (nx : ℕ) (c dt dx : ℚ) (u : ℕ → ℚ) (i : ℕ), 0 ≤ c → 1 ≤ i → i < nx →
        step1d nx c dt dx u i = u i - c * dt / dx * (u i - u (i - 1))) ∧
    (∀ (nx : ℕ) (c dt dx : ℚ) (u : ℕ → ℚ), 0 ≤ c → 2 ≤ nx →
        step1d nx c dt dx u 0 = u 0 - c * dt / dx * (u 0 - u (nx - 1))) ∧
    (∀ (nx : ℕ) (c dt dx : ℚ) (u : ℕ → ℚ) (i : ℕ), c < 0 → i < nx - 1 →
        step1d nx c dt dx u i = u i - c * dt / dx * (u (i + 1) - u i)) ∧
    (∀ (nx : ℕ) (c dt dx : ℚ) (u : ℕ → ℚ), c < 0 → 2 ≤ nx →
        step1d nx c dt dx u (nx - 1) =
          u (nx - 1) - c * dt / dx * (u 0 - u (nx - 1))) := by
  refine ⟨?_, ?_, ?_, ?_⟩
  · intro nx c dt dx u i hc hi1 hi2
    have hi0 : ¬ i = 0 := by omega
    simp [step1d, hc, hi0, hi2]
  · intro nx c dt dx u hc hnx
    simp [step1d, hc]
  · intro nx c dt dx u i hc hi
    have hcle : ¬ 0 ≤ c := not_le.mpr hc
    have hine : ¬ i = nx - 1 := by omega
    have hilt : i < nx := by omega
    simp [step1d, hcle, hine, hilt]
  · intro nx c dt dx u hc hnx
    have hcle : ¬ 0 ≤ c := not_le.mpr hc
    simp [step1d, hcle]

/-- C4 witness: concrete evaluations of all four stencil cases on `nx = 3`. -/
theorem upwind_stencil_witness :
    step1d 3 (1 : ℚ) 2 3 (fun i : ℕ => (i : ℚ) + 1) 1 =
      (fun i : ℕ => (i : ℚ) + 1) 1 -
        1 * 2 / 3 * ((fun i : ℕ => (i : ℚ) + 1) 1 - (fun i : ℕ => (i : ℚ) + 1) (1 - 1)) ∧
    step1d 3 (1 : ℚ) 2 3 (fun i : ℕ => (i : ℚ) + 1) 0 =
      (fun i : ℕ => (i : ℚ) + 1) 0 -
        1 * 2 / 3 * ((fun i : ℕ => (i : ℚ) + 1) 0 - (fun i : ℕ => (i : ℚ) + 1) (3 - 1)) ∧
    step1d 3 (-1 : ℚ) 2 3 (fun i : ℕ => (i : ℚ) + 1) 1 =
      (fun i : ℕ => (i : ℚ) + 1) 1 -
        (-1) * 2 / 3 *
          ((fun i : ℕ => (i : ℚ) + 1) (1 + 1) - (fun i : ℕ => (i : ℚ) + 1) 1) ∧
    step1d 3 (-1 : ℚ) 2 3 (fun i : ℕ => (i : ℚ) + 1) (3 - 1) =
      (fun i : ℕ => (i : ℚ) + 1) (3 - 1) -
        (-1) * 2 / 3 *
          ((fun i : ℕ => (i : ℚ) + 1) 0 - (fun i : ℕ => (i : ℚ) + 1) (3 - 1)) :=
  ⟨upwind_stencil.1 3 1 2 3 (fun i : ℕ => (i : ℚ) + 1) 1 (by norm_num)
      (by norm_num) (by norm_num),
    upwind_stencil.2.1 3 1 2 3 (fun i : ℕ => (i : ℚ) + 1) (by norm_num)
      (by norm_num),
    upwind_stencil.2.2.1 3 (-1) 2 3 (fun i : ℕ => (i : ℚ) + 1) 1 (by norm_num)
      (by norm_num),
    upwind_stencil.2.2.2 3 (-1) 2 3 (fun i : ℕ => (i : ℚ) + 1) (by norm_num)
      (by norm_num)⟩

/-- C7: the diffusion pass adds the 5-point Laplacian increment, divided by
`dx · dy`, exactly at interior points (both indices strictly between 0 and
the last index) and leaves every edge row/column entry unchanged, so edge
entries of a full 2-D step receive only the advective update. -/
theorem diffusion_interior_only :
    (∀ (nx ny : ℕ) (d dt dx dy : ℚ) (u un : ℕ → ℕ → ℚ) (i j : ℕ),
        1 ≤ i → i < ny - 1 → 1 ≤ j → j < nx - 1 →
        diffPass nx ny d dt dx dy u un i j =
          un i j + d * dt *
            ((u (i + 1) j + u (i - 1) j + u i (j + 1) + u i (j - 1)
              - 4 * u i j) / (dx * dy))) ∧
    (∀ (nx ny : ℕ) (d dt dx dy : ℚ) (u un : ℕ → ℕ → ℚ) (i j : ℕ),
        i = 0 ∨ i = ny - 1 ∨ j = 0 ∨ j = nx - 1 →
        diffPass nx ny d dt dx dy u un i j = un i j) ∧
    (∀ (nx ny : ℕ) (cx cy d dt dx dy : ℚ) (u : ℕ → ℕ → ℚ) (i j : ℕ),
        i = 0 ∨ i = ny - 1 ∨ j = 0 ∨ j = nx - 1 →
        step2d nx ny cx cy d dt dx dy u i j =
          advY ny cy dt dy u (advX nx cx dt dx u u) i j) := by
  have hedge : ∀ (ny nx i j : ℕ), i = 0 ∨ i = ny - 1 ∨ j = 0 ∨ j = nx - 1 →
      ¬ (1 ≤ i ∧ i < ny - 1 ∧ 1 ≤ j ∧ j < nx - 1) := by
    intro ny nx i j h
    rcases h with h | h | h | h <;> omega
  refine ⟨?_, ?_, ?_⟩
  · intro nx ny d dt dx dy u un i j h1 h2 h3 h4
    rw [diffPass, if_pos ⟨h1, h2, h3, h4⟩]
  · intro nx ny d dt dx dy u un i j h
    rw [diffPass, if_neg (hedge ny nx i j h)]
  · intro nx ny cx cy d dt dx dy u i j h
    rw [step2d, diffPass, if_neg (hedge ny nx i j h)]

/-- C7 witness: interior point `(1,1)` of a 3×3 grid gets the Laplacian
increment; edge point `(0,1)` is untouched by the diffusion pass and gets
only the advective update in a full step. -/
theorem diffusion_interior_only_witness :
    diffPass 3 3 (1 : ℚ) 1 1 1 (fun i j : ℕ => (i + 2 * j : ℚ))
        (fun i j : ℕ => (i * j : ℚ)) 1 1 =
      (fun i j : ℕ => (i * j : ℚ)) 1 1 + 1 * 1 *
        (((fun i j : ℕ => (i + 2 * j : ℚ)) 2 1 + (fun i j : ℕ => (i + 2 * j : ℚ)) 0 1
          + (fun i j : ℕ => (i + 2 * j : ℚ)) 1 2 + (fun i j : ℕ => (i + 2 * j : ℚ)) 1 0
          - 4 * (fun i j : ℕ => (i + 2 * j : ℚ)) 1 1) / (1 * 1)) ∧
    diffPass 3 3 (1 : ℚ) 1 1 1 (fun i j : ℕ => (i + 2 * j : ℚ))
        (fun i j : ℕ => (i * j : ℚ)) 0 1 = (fun i j : ℕ => (i * j : ℚ)) 0 1 ∧
    step2d 3 3 (1 : ℚ) 1 1 1 1 1 (fun i j : ℕ => (i + 2 * j : ℚ)) 0 1 =
      advY 3 (1 : ℚ) 1 1 (fun i j : ℕ => (i + 2 * j : ℚ))
        (advX 3 (1 : ℚ) 1 1 (fun i j : ℕ => (i + 2 * j : ℚ))
          (fun i j : ℕ => (i + 2 * j : ℚ))) 0 1 :=
  ⟨diffusion_interior_only.1 3 3 1 1 1 1 (fun i j : ℕ => (i + 2 * j : ℚ))
      (fun i j : ℕ => (i * j : ℚ)) 1 1 (by norm_num) (by norm_num) (by norm_num)
      (by norm_num),
    diffusion_interior_only.2.1 3 3 1 1 1 1 (fun i j : ℕ => (i + 2 * j : ℚ))
      (fun i j : ℕ => (i * j : ℚ)) 0 1 (Or.inl rfl),
    diffusion_interior_only.2.2 3 3 1 1 1 1 1 1 (fun i j : ℕ => (i + 2 * j : ℚ))
      0 1 (Or.inl rfl)⟩

/-- With `cx = 0` the x-advection pass leaves the accumulator unchanged. -/
theorem advX_zero (nx : ℕ) (dt dx : α) (u un : ℕ → ℕ → α) :
    advX nx 0 dt dx u un = un := by
  funext i j
  simp only [advX, le_refl, if_true, zero_mul, zero_div, sub_zero]
  split
  · rename_i h; rw [h]
  · split <;> rfl

/-- With `cy = 0` the y-advection pass leaves the accumulator unchanged. -/
theorem advY_zero (ny : ℕ) (dt dy : α) (u un : ℕ → ℕ → α) :
    advY ny 0 dt dy u un = un := by
  funext i j
  simp only [advY, le_refl, if_true, zero_mul, zero_div, sub_zero]
  split
  · rename_i h; rw [h]
  · split <;> rfl

/-- With `diffusion = 0` the diffusion pass leaves the accumulator unchanged. -/
theorem diffPass_zero (nx ny : ℕ) (dt dx dy : α) (u un : ℕ → ℕ → α) :
    diffPass nx ny 0 dt dx dy u un = un := by
  funext i j
  simp [diffPass]

/-- With all transport coefficients zero, one 2-D step is the identity. -/
theorem step2d_zero (nx ny : ℕ) (dt dx dy : α) (u : ℕ → ℕ → α) :
    step2d nx ny 0 0 0 dt dx dy u = u := by
  rw [step2d, advX_zero, advY_zero, diffPass_zero]

/-- C8: with `cx = cy = 0` and `diffusion = 0` the 2-D stepper is the
identity on the field, so every snapshot of such a run equals the step-0
field exactly. -/
theorem zero_coefficients_identity (gexp : ℚ → ℚ) (nx ny N ivl : ℕ)
    (hnx : 2 ≤ nx) (hny : 2 ≤ ny) (hivl : 1 ≤ ivl) :
    (∀ (dt dx dy : ℚ) (u : ℕ → ℕ → ℚ), step2d nx ny 0 0 0 dt dx dy u = u) ∧
    ∃ r, solve_2d_advection_diffusion gexp nx ny (0 : ℚ) 0 0 N ivl = .ok r ∧
      r.series.head? = some (0, init2d gexp nx ny) ∧
      ∀ p ∈ r.series, p.2 = init2d gexp nx ny := by
  have hnx1 : nx ≠ 1 := by omega
  have hny1 : ny ≠ 1 := by omega
  have hivl0 : ivl ≠ 0 := by omega
  refine ⟨fun dt dx dy u => step2d_zero nx ny dt dx dy u,
    _, solve_2d_eq gexp 0 0 0 N hnx1 hny1 hivl0, rfl, ?_⟩
  intro p hp
  have hid : step2d nx ny (0 : ℚ) 0 0 (dt2d nx ny 0 0 0) (spacing nx)
      (spacing ny) = id := funext (step2d_zero nx ny _ _ _)
  rcases List.mem_cons.mp hp with rfl | hp
  · rfl
  · obtain ⟨m, _, hpe⟩ := List.mem_map.mp hp
    rw [← hpe, hid, Function.iterate_id]
    rfl

/-- C8 witness: the spec's concrete scenario B,
`nx = ny = 5`, `num_steps = 3`, `output_interval = 1`. -/
theorem zero_coefficients_identity_witness :
    (∀ (dt dx dy : ℚ) (u : ℕ → ℕ → ℚ), step2d 5 5 0 0 0 dt dx dy u = u) ∧
    ∃ r, solve_2d_advection_diffusion (fun q : ℚ => q) 5 5 (0 : ℚ) 0 0 3 1 =
        .ok r ∧
      r.series.head? = some (0, init2d (fun q : ℚ => q) 5 5) ∧
      ∀ p ∈ r.series, p.2 = init2d (fun q : ℚ => q) 5 5 :=
  zero_coefficients_identity (fun q : ℚ => q) 5 5 3 1 (by decide) (by decide)
    (by decide)

/-- C6: the 2-D time step is the minimum of the advective limit, the
diffusive limit and the hard ceiling `0.002`, and it is computed once — every
snapshot of a run is an iterate of the one stepper built from that single
`dt`. -/
theorem timestep_selection (gexp : ℚ → ℚ) (nx ny : ℕ) (cx cy d : ℚ)
    (N ivl : ℕ) (hnx : 2 ≤ nx) (hny : 2 ≤ ny) (hivl : 1 ≤ ivl) :
    dt2d nx ny cx cy d =
      min (min (min (spacing nx / max |cx| (1 / 1000000))
          (spacing ny / max |cy| (1 / 1000000)))
        (1 / 4 * min (spacing nx ^ 2) (spacing ny ^ 2) /
          max d (1 / 10000000000)))
        (1 / 500) ∧
    ∃ r, solve_2d_advection_diffusion gexp nx ny cx cy d N ivl = .ok r ∧
      ∀ p ∈ r.series,
        p.2 = (step2d nx ny cx cy d (dt2d nx ny cx cy d) (spacing nx)
          (spacing ny))^[p.1] (init2d gexp nx ny) := by
  have hnx1 : nx ≠ 1 := by omega
  have hny1 : ny ≠ 1 := by omega
  have hivl0 : ivl ≠ 0 := by omega
  refine ⟨rfl, _, solve_2d_eq gexp cx cy d N hnx1 hny1 hivl0, ?_⟩
  intro p hp
  rcases List.mem_cons.mp hp with rfl | hp
  · rfl
  · obtain ⟨m, _, hpe⟩ := List.mem_map.mp hp
    rw [← hpe]

/-- C6 witness: a concrete 2-D run. -/
theorem timestep_selection_witness :
    dt2d 2 3 (1/2 : ℚ) 0 (1/1000) =
      min (min (min (spacing 2 / max |(1/2 : ℚ)| (1 / 1000000))
          (spacing 3 / max |(0 : ℚ)| (1 / 1000000)))
        (1 / 4 * min (spacing (α := ℚ) 2 ^ 2) (spacing (α := ℚ) 3 ^ 2) /
          max (1/1000 : ℚ) (1 / 10000000000)))
        (1 / 500) ∧
    ∃ r, solve_2d_advection_diffusion (fun q : ℚ => q) 2 3 (1/2 : ℚ) 0
        (1/1000) 1 1 = .ok r ∧
      ∀ p ∈ r.series,
        p.2 = (step2d 2 3 (1/2 : ℚ) 0 (1/1000) (dt2d 2 3 (1/2 : ℚ) 0 (1/1000))
          (spacing 2) (spacing 3))^[p.1] (init2d (fun q : ℚ => q) 2 3) :=
  timestep_selection (fun q : ℚ => q) 2 3 (1/2) 0 (1/1000) 1 1 (by decide)
    (by decide) (by decide)

/-- C9: the step-0 snapshot of either solver is exactly the closed-form
Gaussian evaluated at the uniformly spaced grid coordinates over `[0, 1]`
(both endpoints included): in 1-D `u i = exp(-40 (x i - 0.25)^2)` with
`x i = i / (nx - 1)`, in 2-D
`u i j = exp(-80 ((x j - 0.3)^2 + (y i - 0.5)^2))`; both are deterministic
functions of the grid. -/
theorem initial_condition_exact (nx ny : ℕ) (c cx cy d : ℝ) (N ivl : ℕ)
    (hnx : 2 ≤ nx) (hny : 2 ≤ ny) (hivl : 1 ≤ ivl) :
    (∃ r1, solve_1d_advection Real.exp nx c N ivl = .ok r1 ∧
      r1.series.head? = some (0, init1d Real.exp nx) ∧
      (∀ i, r1.x i = (i : ℝ) / ((nx : ℝ) - 1)) ∧
      r1.x 0 = 0 ∧ r1.x (nx - 1) = 1 ∧
      (∀ i, init1d Real.exp nx i =
        Real.exp (-40 * ((i : ℝ) / ((nx : ℝ) - 1) - 1 / 4) ^ 2))) ∧
    (∃ r2, solve_2d_advection_diffusion Real.exp nx ny cx cy d N ivl =
        .ok r2 ∧
      r2.series.head? = some (0, init2d Real.exp nx ny) ∧
      (∀ i j, init2d Real.exp nx ny i j =
        Real.exp (-80 * (((j : ℝ) / ((nx : ℝ) - 1) - 3 / 10) ^ 2 +
          ((i : ℝ) / ((ny : ℝ) - 1) - 1 / 2) ^ 2)))) := by
  have hnx1 : nx ≠ 1 := by omega
  have hny1 : ny ≠ 1 := by omega
  have hivl0 : ivl ≠ 0 := by omega
  have hcast : (2 : ℝ) ≤ (nx : ℝ) := by exact_mod_cast hnx
  constructor
  · refine ⟨_, solve_1d_eq Real.exp c N hnx1 hivl0, rfl, fun i => rfl,
      ?_, ?_, fun i => rfl⟩
    · show linspace01 nx 0 = (0 : ℝ)
      simp [linspace01]
    · show linspace01 nx (nx - 1) = (1 : ℝ)
      rw [linspace01]
      rw [Nat.cast_sub (by omega : 1 ≤ nx), Nat.cast_one]
      exact div_self (by linarith)
  · exact ⟨_, solve_2d_eq Real.exp cx cy d N hnx1 hny1 hivl0, rfl,
      fun i j => rfl⟩

/-- C9 witness: the smallest valid grid, `nx = ny = 2`. -/
theorem initial_condition_exact_witness :
    (∃ r1, solve_1d_advection Real.exp 2 (1 : ℝ) 1 1 = .ok r1 ∧
      r1.series.head? = some (0, init1d Real.exp 2) ∧
      (∀ i, r1.x i = (i : ℝ) / (((2 : ℕ) : ℝ) - 1)) ∧
      r1.x 0 = 0 ∧ r1.x (2 - 1) = 1 ∧
      (∀ i, init1d Real.exp 2 i =
        Real.exp (-40 * ((i : ℝ) / (((2 : ℕ) : ℝ) - 1) - 1 / 4) ^ 2))) ∧
    (∃ r2, solve_2d_advection_diffusion Real.exp 2 2 (0 : ℝ) 0 0 1 1 =
        .ok r2 ∧
      r2.series.head? = some (0, init2d Real.exp 2 2) ∧
      (∀ i j, init2d Real.exp 2 2 i j =
        Real.exp (-80 * (((j : ℝ) / (((2 : ℕ) : ℝ) - 1) - 3 / 10) ^ 2 +
          ((i : ℝ) / (((2 : ℕ) : ℝ) - 1) - 1 / 2) ^ 2)))) :=
  initial_condition_exact 2 2 1 0 0 0 1 1 (by norm_num) (by norm_num)
    (by norm_num)

end WeatherModel
